import Mathlib

/-!
Verification of the ElementTesterV2 test-orchestration core against its
natural-language specification.

The Python source is shallowly embedded: hardware (the 8-channel ERB08
relay bank, the AR3865 hipot instrument, the meter) is modelled by
explicit state and by environment records that say which driver calls
succeed; operator dialog choices and sequencer outcomes are supplied as
input scripts; unbounded retry loops become fueled recursions returning
Option (none = the fuel ran out, corresponding to a run that has not yet
terminated).  Floating-point measurement values are modelled as rationals;
instrument strings as Lean strings over the ASCII fragment the code
manipulates.
-/

namespace ElementTester

/-! ## Relay bank model (MCC_ERB driver)

The ERB08 relay driver exposes set_relay(bit, on) and all_off().
State is the list of the 8 channel booleans (true = energized/closed). -/

/-- State of the 8 relay channels; index i = channel i, true = closed. -/
def RelayState : Type := List Bool

instance : DecidableEq RelayState := by unfold RelayState; infer_instance

/-- all_off(): every channel off. -/
def allOffState : RelayState := List.replicate 8 false

/-- set_relay(bit, on): set one channel. -/
def setRelay (s : RelayState) (bit : Nat) (b : Bool) : RelayState :=
  s.set bit b

/-- Every relay channel reports off. -/
def allChannelsOff (s : RelayState) : Bool :=
  s.all (fun b => !b)

instance : Inhabited RelayState := ⟨allOffState⟩

/-! ## Hipot raw-result interpretation (AR3865Procedures.run_from_file)

The instrument result is interpreted by
  result_clean = (result or "").strip().upper()
  passed = "PASS" in result_clean
We embed the Python string operations on the ASCII fragment involved:
str.strip() with no argument removes leading and trailing whitespace
(space, tab, newline, carriage return, vertical tab, form feed),
str.upper() maps lowercase ASCII letters to uppercase, and the `in`
operator is contiguous-substring containment. -/

/-- Python str.strip() whitespace set (ASCII fragment). -/
def pyIsSpace (c : Char) : Bool :=
  c = ' ' || c = Char.ofNat 9 || c = Char.ofNat 10 || c = Char.ofNat 13 ||
  c = Char.ofNat 11 || c = Char.ofNat 12

/-- Python str.strip(): drop leading and trailing whitespace. -/
def pyStrip (l : List Char) : List Char :=
  ((l.dropWhile pyIsSpace).reverse.dropWhile pyIsSpace).reverse

/-- Python str.upper() on the ASCII fragment: map a-z to A-Z. -/
def pyUpper (l : List Char) : List Char :=
  l.map Char.toUpper

/-- needle `startsWith` hay test: the first list is an initial segment of the second. -/
def startsWithSeq : List Char → List Char → Bool
  | [], _ => true
  | _ :: _, [] => false
  | a :: as, b :: bs => a = b && startsWithSeq as bs

/-- Python substring containment (needle `in` hay). -/
def containsSeq (needle : List Char) : List Char → Bool
  | [] => startsWithSeq needle []
  | c :: rest => startsWithSeq needle (c :: rest) || containsSeq needle rest

/-- Judgement of the raw hipot result string
(run_from_file lines 179-180): none models a Python None result,
and `result or ""` turns it into the empty string. -/
def hipotResultPassed (result : Option String) : Bool :=
  let raw := match result with
    | none => ""
    | some s => s
  let cleaned := pyUpper (pyStrip raw.toList)
  containsSeq "PASS".toList cleaned

/-! ## Hipot stored-profile index selection (TestRunner._select_hypot_file_index)

The orchestrator keeps the operator-selected configuration as an optional
record; the voltage may be absent.  index 2 iff voltage is 440 or 480. -/

/-- Operator-selected configuration, as built by run_full_sequence. -/
structure Configuration where
  voltage : Option Int
  wattage : Option Int
  resistanceRange : Option (ℚ × ℚ)
deriving DecidableEq, Repr

/-- TestRunner._select_hypot_file_index: 2 when the configured voltage is
440 or 480, otherwise 1 (also when no configuration or no voltage). -/
def selectHypotFileIndex (cfg : Option Configuration) : Nat :=
  match cfg with
  | none => 1
  | some c =>
    match c.voltage with
    | none => 1
    | some v => if v = 440 ∨ v = 480 then 2 else 1

/-! ## Per-point range judgement (MeasurementTestSequence.run_test, lines 328-333)

For a successfully read point value avg and a configured range (rmin, rmax):
  l_pass = (rmin <= avg <= rmax). -/

/-- The per-point pass judgement attached to a successfully read value. -/
def pointPass (range : ℚ × ℚ) (v : ℚ) : Bool :=
  range.1 ≤ v && v ≤ range.2

/-! ## Hipot sequencer (hipot_test_procedures.run_hipot_test)

The relay-observable behaviour of run_hipot_test.  The environment record
says which hardware calls succeed; runOutcome none models run_from_file
raising an exception, some (passed, raw) its normal return.  The returned
Except.error () stands for the exception the function re-raises; the
second component is the relay state when the function returns or
re-raises.  The instrument-only steps (idn read, reset_after_test) touch
no relay and carry no modelled state. -/

/-- Success or failure of each hardware call made by run_hipot_test. -/
structure HipotEnv where
  startAllOffOk : Bool
  resetOk : Bool
  close7Ok : Bool
  close6Ok : Bool
  runOutcome : Option (Bool × String)
  open6Ok : Bool
  openAllOffOk : Bool
  open7Ok : Bool
  emergencyAllOffOk : Bool
deriving DecidableEq, Repr

/-- The except-handler of run_hipot_test (lines 157-168): when relays had
begun closing, all_off is attempted only when keep_relay_closed is false;
a failing all_off leaves the state unchanged (logged as critical). -/
def emergencyCleanup (env : HipotEnv) (keep : Bool) (s : RelayState) : RelayState :=
  if keep then s
  else if env.emergencyAllOffOk then allOffState else s

/-- run_hipot_test: step 0 best-effort all_off, step 1 instrument reset
(fatal on failure, relays untouched since relay_closed is still False),
step 1b close channel 7 (relay 8), step 2 close channel 6 (relay 7),
step 3 run_from_file, step 5 optional instrument reset (no relay effect),
step 6 open the two channels unless keep_relay_closed.  Any exception in
steps raised after relay_closed became True goes through
emergencyCleanup before being re-raised. -/
def runHipotTest (env : HipotEnv) (keepRelayClosed : Bool) (s0 : RelayState) :
    Except Unit (Bool × String) × RelayState :=
  let s1 := if env.startAllOffOk then allOffState else s0
  if env.resetOk = false then (Except.error (), s1)
  else if env.close7Ok = false then (Except.error (), s1)
  else
    let s2 := setRelay s1 7 true
    if env.close6Ok = false then (Except.error (), emergencyCleanup env keepRelayClosed s2)
    else
      let s3 := setRelay s2 6 true
      match env.runOutcome with
      | none => (Except.error (), emergencyCleanup env keepRelayClosed s3)
      | some (passed, raw) =>
        let s4 :=
          if keepRelayClosed then s3
          else
            let sA := if env.open6Ok then setRelay s3 6 false
                      else if env.openAllOffOk then allOffState else s3
            if env.open7Ok then setRelay sA 7 false else sA
        (Except.ok (passed, raw), s4)

/-! ## Measurement sequencer aggregation (MeasurementTestSequence.run_test)

Per pin-pair position the read loop either accepts a value (already
rounded to one decimal by the code), exhausts its attempt/timeout bound
(appending the 0.0 sentinel and setting timeout_occurred), or hits an
exception outside the read loop (appending 0.0 without setting
timeout_occurred).  left_vals and right_vals receive the same value at
every position.  The aggregation at lines 428-459 is embedded exactly. -/

/-- What one pin-pair position produced. -/
inductive PointOutcome
  | ok (v : ℚ)
  | timedOut
  | exn
deriving DecidableEq, Repr

/-- The value appended to left_vals/right_vals for a position. -/
def recordedValue : PointOutcome → ℚ
  | .ok v => v
  | .timedOut => 0
  | .exn => 0

/-- Did the position set timeout_occurred. -/
def isTimeout : PointOutcome → Bool
  | .timedOut => true
  | _ => false

/-- Python f-string rendering of a one-decimal value, for the failure
message entries (values reaching it are multiples of 1/10). -/
def fmt1 (q : ℚ) : String :=
  let n := (q * 10).num
  let i := n / 10
  let f := (n % 10).natAbs
  (if n < 0 ∧ i = 0 then "-" else "") ++ toString i ++ "." ++ toString f

/-- The failed_measurements loop (lines 441-449): index over
left_vals ++ right_vals, side L for the first three, pin = idx mod 3 + 1;
a 0.0 value yields a failed/timeout entry, an out-of-range value an
out-of-range entry. -/
def failedEntriesFrom (rmin rmax : ℚ) : Nat → List ℚ → List String
  | _, [] => []
  | idx, v :: rest =>
    let side := if idx < 3 then "L" else "R"
    let pin := idx % 3 + 1
    if v = 0 then
      (side ++ "P" ++ toString pin ++ " (failed/timeout)") ::
        failedEntriesFrom rmin rmax (idx + 1) rest
    else if ¬(rmin ≤ v ∧ v ≤ rmax) then
      (side ++ "P" ++ toString pin ++ " (" ++ fmt1 v ++ "Ω out of " ++
          fmt1 rmin ++ "-" ++ fmt1 rmax ++ "Ω)") ::
        failedEntriesFrom rmin rmax (idx + 1) rest
    else failedEntriesFrom rmin rmax (idx + 1) rest

/-- The fixed message produced whenever any position timed out. -/
def timeoutMessage : String :=
  "Problem with the UT61xP measurement application. Call (318-272-3118)"

/-- Overall verdict of one measurement scan: (passed, message, recorded
values, one per position).  Mirrors lines 428-459 of run_test. -/
def measurementRun (outcomes : List PointOutcome) (range : Option (ℚ × ℚ)) :
    Bool × String × List ℚ :=
  let leftVals := outcomes.map recordedValue
  let rightVals := leftVals
  if outcomes.any isTimeout then
    (false, timeoutMessage, leftVals)
  else if leftVals.isEmpty then
    (false, "No measurements were completed - check hardware and connections", leftVals)
  else
    match range with
    | some (rmin, rmax) =>
      let failed := failedEntriesFrom rmin rmax 0 (leftVals ++ rightVals)
      if failed.isEmpty then
        (true, "All measurements within limits", leftVals)
      else
        (false, "Failed: " ++ String.intercalate ", " failed, leftVals)
    | none => (true, "Measurements recorded (no range configured)", leftVals)

/-! ## Session log module (result_logging)

One AttemptRecord per hipot or measurement execution; a TestSession holds
the ordered attempt lists and the final result, set at finalize time.
The module keeps one current session; start_test_session finalizes a
still-open previous session as FAIL before replacing it.  Superseded and
finalized sessions are collected in a history list so that theorems can
speak about them (in the source the replaced object simply becomes
unreachable). -/

/-- One logged attempt. -/
structure AttemptRec where
  attempt : Nat
  passed : Bool
  message : String
deriving DecidableEq, Repr

/-- TestSession state (file paths and timestamps are not modelled). -/
structure Session where
  hipotAttempts : List AttemptRec
  measAttempts : List AttemptRec
  finalResult : Option Bool
  finalNote : String
deriving DecidableEq, Repr

/-- A freshly created session. -/
def Session.fresh : Session := ⟨[], [], none, ""⟩

/-- TestSession.log_hipot_attempt: attempt_num = len(hipot_attempts) + 1,
then append. -/
def Session.logHipot (s : Session) (passed : Bool) (msg : String) : Session :=
  { s with hipotAttempts :=
      s.hipotAttempts ++ [⟨s.hipotAttempts.length + 1, passed, msg⟩] }

/-- TestSession.log_measurement_attempt, same numbering over the
measurement list. -/
def Session.logMeas (s : Session) (passed : Bool) (msg : String) : Session :=
  { s with measAttempts :=
      s.measAttempts ++ [⟨s.measAttempts.length + 1, passed, msg⟩] }

/-- TestSession.finalize: record the overall result and note. -/
def Session.finalizeWith (s : Session) (pass : Bool) (note : String) : Session :=
  { s with finalResult := some pass, finalNote := note }

/-- The note used when a new session supersedes an unfinalized one. -/
def supersededNote : String := "Session ended without completion (new session started)"

/-- Module-level state of result_logging: the current session and the
sessions that have left the current slot. -/
structure LogModuleState where
  current : Option Session
  history : List Session
deriving DecidableEq, Repr

/-- start_test_session: finalize a still-open previous session as FAIL
with supersededNote, then install a fresh session. -/
def startTestSession (st : LogModuleState) : LogModuleState :=
  match st.current with
  | some prev =>
    if prev.finalResult = none then
      { current := some Session.fresh,
        history := st.history ++ [prev.finalizeWith false supersededNote] }
    else
      { current := some Session.fresh, history := st.history ++ [prev] }
  | none => { current := some Session.fresh, history := st.history }

/-- log_hipot_result: logged only when a session is active. -/
def logHipotResult (st : LogModuleState) (passed : Bool) (msg : String) : LogModuleState :=
  match st.current with
  | none => st
  | some c => { st with current := some (c.logHipot passed msg) }

/-- log_measurement_result: logged only when a session is active. -/
def logMeasurementResult (st : LogModuleState) (passed : Bool) (msg : String) : LogModuleState :=
  match st.current with
  | none => st
  | some c => { st with current := some (c.logMeas passed msg) }

/-- finalize_session: finalize the current session and clear the slot. -/
def finalizeSession (st : LogModuleState) (pass : Bool) (note : String) : LogModuleState :=
  match st.current with
  | none => st
  | some c => { current := none, history := st.history ++ [c.finalizeWith pass note] }

/-! ## Sequence-number discovery (result_logging._get_next_sequence_number)

Filenames are modelled as lists of characters.  The scan takes the
maximum over numbers parsed (anchored regex ET_ELOV(dddd).txt) from the
accessible locations - the mirror locations whose directory exists, and
the local results directory - then increments from max+1 until the
generated candidate filename exists at no accessible location. -/

/-- A mirror/remote log location: does the directory exist, and which
files it holds. -/
structure MirrorLoc where
  accessible : Bool
  files : List (List Char)
deriving DecidableEq, Repr

/-- The file-system state the discovery scan sees. -/
structure LogFS where
  localFiles : List (List Char)
  mirrors : List MirrorLoc
deriving DecidableEq, Repr

/-- All filenames at accessible locations (mirror directories that exist,
plus the local results directory, which the function creates first). -/
def accessibleFiles (fs : LogFS) : List (List Char) :=
  (fs.mirrors.filter (fun m => m.accessible)).flatMap (fun m => m.files) ++ fs.localFiles

/-- The regex ET_ELOV(dddd).txt anchored at both ends: exactly four
digits between the fixed affixes. -/
def parseSeqNum : List Char → Option Nat
  | 'E' :: 'T' :: '_' :: 'E' :: 'L' :: 'O' :: 'V' ::
      d1 :: d2 :: d3 :: d4 :: '.' :: 't' :: 'x' :: 't' :: [] =>
    if d1.isDigit && d2.isDigit && d3.isDigit && d4.isDigit then
      some ((((d1.toNat - 48) * 10 + (d2.toNat - 48)) * 10 + (d3.toNat - 48)) * 10
        + (d4.toNat - 48))
    else none
  | _ => none

/-- Digit rendering. -/
def digitChar : Nat → Char
  | 0 => '0' | 1 => '1' | 2 => '2' | 3 => '3' | 4 => '4'
  | 5 => '5' | 6 => '6' | 7 => '7' | 8 => '8' | 9 => '9'
  | _ => '?'

/-- Digit reading, inverse of digitChar on 0..9. -/
def charToDigit : Char → Nat
  | '0' => 0 | '1' => 1 | '2' => 2 | '3' => 3 | '4' => 4
  | '5' => 5 | '6' => 6 | '7' => 7 | '8' => 8 | '9' => 9
  | _ => 0

/-- Little-endian decimal digits of n, with enough fuel (fuel ≥ n). -/
def decDigits : Nat → Nat → List Nat
  | 0, _ => []
  | fuel + 1, n => if n = 0 then [] else n % 10 :: decDigits fuel (n / 10)

/-- Decimal character rendering of n (empty for 0, as an intermediate of
the padded form below). -/
def decChars (n : Nat) : List Char :=
  ((decDigits n n).map digitChar).reverse

/-- Python %04d: decimal, left-padded with zeros to at least width 4. -/
def pad4 (n : Nat) : List Char :=
  List.replicate (4 - (decChars n).length) '0' ++ decChars n

/-- The generated candidate filename ET_ELOV%04d.txt. -/
def seqFileName (n : Nat) : List Char :=
  "ET_ELOV".toList ++ pad4 n ++ ".txt".toList

/-- Maximum sequence number parsed from the accessible filenames
(0 when none parse). -/
def maxSeq (fs : LogFS) : Nat :=
  ((accessibleFiles fs).filterMap parseSeqNum).foldr max 0

/-- The collision loop: increment the candidate while its filename exists
at an accessible location.  Fuel replaces the unbounded while-loop; the
freeness theorem below shows the starting fuel suffices. -/
def seqLoop (fs : LogFS) : Nat → Nat → Nat
  | 0, c => c
  | fuel + 1, c =>
    if seqFileName c ∈ accessibleFiles fs then seqLoop fs fuel (c + 1) else c

/-- _get_next_sequence_number: start at maxSeq+1 and search upward for a
free filename. -/
def nextSequenceNumber (fs : LogFS) : Nat :=
  seqLoop fs ((accessibleFiles fs).length + 1) (maxSeq fs + 1)

/-! ## Orchestrator (TestRunner.run_full_sequence / _run_normal_sequence)

Operator dialog choices and sequencer outcomes are supplied as scripts.
A sequencer run is abstracted as its reported verdict and message plus an
arbitrary transformation of the relay state (run_hipot and run_measuring
catch sequencer exceptions and convert them into failed attempts, so an
exception inside a sequencer is a run with passed = false whose relay
effect may leave channels closed).  The unbounded retry loops take fuel;
none means the fuel ran out before the run terminated.  The embedding
models the shipped configuration in which the dialog widgets imported
successfully.  resetOk says whether the hardware calls made by
_reset_hardware (relay all_off, then open_all_relays) succeed. -/

/-- Operator choice in the three-way hipot dialog. -/
inductive HChoice
  | cont
  | retry
  | leave
deriving DecidableEq, Repr

/-- One scripted sequencer run: verdict, message, relay effect. -/
structure RunSpec where
  passed : Bool
  msg : String
  eff : RelayState → RelayState

/-- Events of the hipot phase, for stating prompt/run ordering. -/
inductive HEvent
  | ranTest (passed : Bool)
  | prompted (choice : HChoice)
deriving DecidableEq, Repr

/-- TestRunner._reset_hardware: relay all_off then the hipot-path open;
when the calls succeed every channel ends off, a failing call leaves the
state unchanged. -/
def resetHardware (resetOk : Bool) (s : RelayState) : RelayState :=
  if resetOk then allOffState else s

/-- Measurement retry loop (test_runner lines 498-554).  Each iteration
runs the sequencer, logs the attempt, exits the loop on pass, otherwise
consumes one Continue/Exit decision; Exit resets the hardware and aborts.
Returns (proceed to hipot?, last message, relays, log state). -/
def measPhase (resetOk : Bool) :
    Nat → List RunSpec → List Bool → RelayState → LogModuleState →
      Option (Bool × String × RelayState × LogModuleState)
  | 0, _, _, _, _ => none
  | _ + 1, [], _, _, _ => none
  | fuel + 1, r :: runs, decs, s, lg =>
    let s1 := r.eff s
    let lg1 := logMeasurementResult lg r.passed r.msg
    if r.passed then some (true, r.msg, s1, lg1)
    else
      match decs with
      | [] => none
      | d :: decs' =>
        if d then measPhase resetOk fuel runs decs' s1 lg1
        else some (false, r.msg, resetHardware resetOk s1, lg1)

/-- Hipot retry loop (test_runner lines 557-648).  Each loop iteration
runs the sequencer (keep_relay_closed=True), logs the attempt, and always
shows the three-way dialog.  RETRY loops; EXIT resets the hardware and
aborts; CONTINUE breaks on a passed run, and after a failed run performs
one automatic re-run (logged), breaking if it passes and otherwise
continuing with the loop, whose next iteration runs the sequencer again
before the next dialog.  Returns (success?, last message, relays, log
state, event trace). -/
def hipotPhase (resetOk : Bool) :
    Nat → List RunSpec → List HChoice → RelayState → LogModuleState → List HEvent →
      Option (Bool × String × RelayState × LogModuleState × List HEvent)
  | 0, _, _, _, _, _ => none
  | _ + 1, [], _, _, _, _ => none
  | fuel + 1, r :: runs, decs, s, lg, tr =>
    let s1 := r.eff s
    let lg1 := logHipotResult lg r.passed r.msg
    let tr1 := tr ++ [HEvent.ranTest r.passed]
    match decs with
    | [] => none
    | d :: decs' =>
      let tr2 := tr1 ++ [HEvent.prompted d]
      match d with
      | .retry => hipotPhase resetOk fuel runs decs' s1 lg1 tr2
      | .leave => some (false, r.msg, resetHardware resetOk s1, lg1, tr2)
      | .cont =>
        if r.passed then some (true, r.msg, s1, lg1, tr2)
        else
          match runs with
          | [] => none
          | r2 :: runs' =>
            let s2 := r2.eff s1
            let lg2 := logHipotResult lg1 r2.passed r2.msg
            let tr3 := tr2 ++ [HEvent.ranTest r2.passed]
            if r2.passed then some (true, r2.msg, s2, lg2, tr3)
            else hipotPhase resetOk fuel runs' decs' s2 lg2 tr3

/-- Terminal paths of _run_normal_sequence. -/
inductive SeqOutcome
  | cancelledAtReady
  | measurementCancelled
  | hipotCancelled
  | success
deriving DecidableEq, Repr

/-- The boolean ok value _run_normal_sequence returns for an outcome. -/
def SeqOutcome.isSuccess : SeqOutcome → Bool
  | .success => true
  | _ => false

/-- _run_normal_sequence: ready gate, measurement retry loop, hipot retry
loop, success epilogue (pass dialog, hardware reset, return). -/
def runNormalSequence (resetOk readyContinue : Bool) (fuel : Nat)
    (measRuns : List RunSpec) (measDecs : List Bool)
    (hipotRuns : List RunSpec) (hipotDecs : List HChoice)
    (s : RelayState) (lg : LogModuleState) :
    Option ((SeqOutcome × String) × RelayState × LogModuleState) :=
  if readyContinue = false then
    some ((SeqOutcome.cancelledAtReady, "Operator cancelled before starting tests"),
      resetHardware resetOk s, lg)
  else
    match measPhase resetOk fuel measRuns measDecs s lg with
    | none => none
    | some (false, m, s1, lg1) =>
      some ((SeqOutcome.measurementCancelled,
        "Measuring failed: " ++ m ++ " (operator cancelled)"), s1, lg1)
    | some (true, _, s1, lg1) =>
      match hipotPhase resetOk fuel hipotRuns hipotDecs s1 lg1 [] with
      | none => none
      | some (false, m, s2, lg2, _) =>
        some ((SeqOutcome.hipotCancelled,
          "Hipot failed: " ++ m ++ " (operator cancelled)"), s2, lg2)
      | some (true, _, s2, lg2, _) =>
        some ((SeqOutcome.success, "Hipot + Measuring completed successfully"),
          resetHardware resetOk s2, lg2)

/-- Outcome of the configuration dialog opened by run_full_sequence when
no configuration was previously supplied: the operator declined, the
operator selected a configuration, or the dialog raised (the code then
proceeds without a configuration). -/
inductive DialogOutcome
  | declined
  | selected (cfg : Configuration)
  | errored
deriving DecidableEq, Repr

/-- The message of the demo-only branch. -/
def demoMessage : String :=
  "DEMO sequence complete. This did not exercise real hardware.\nWORK ORDER = TEST, PART = TEST."

/-- run_full_sequence: obtain a configuration if needed (returning a
failure immediately when the operator declines, before any hardware or
session-log action), start the test session, run the demo branch when the
identity is the literal test/test pair or else the normal sequence, and
finalize the session with the overall result. -/
def runFullSequence (cfgAlready : Option Configuration) (dialog : DialogOutcome)
    (isDemoIdentity : Bool) (resetOk readyContinue : Bool) (fuel : Nat)
    (measRuns : List RunSpec) (measDecs : List Bool)
    (hipotRuns : List RunSpec) (hipotDecs : List HChoice)
    (s : RelayState) (lg : LogModuleState) :
    Option ((Bool × String) × RelayState × LogModuleState) :=
  match cfgAlready, dialog with
  | none, DialogOutcome.declined =>
    some ((false, "Operator cancelled configuration"), s, lg)
  | _, _ =>
    let lg1 := startTestSession lg
    if isDemoIdentity then
      some ((true, demoMessage), s,
        finalizeSession lg1 true ("Mode: demo | " ++ demoMessage))
    else
      match runNormalSequence resetOk readyContinue fuel
          measRuns measDecs hipotRuns hipotDecs s lg1 with
      | none => none
      | some ((out, m), s2, lg2) =>
        let ok := out.isSuccess
        some ((ok, m), s2, finalizeSession lg2 ok ("Mode: normal | " ++ m))

/-! ## Auxiliary definitions and concrete instances used by the theorems -/

/-- Value read back from a character rendering, used to invert pad4. -/
def unpadVal (cs : List Char) : Nat :=
  Nat.ofDigits 10 (cs.reverse.map (fun c => charToDigit c))

/-- Number of in-use candidates in the window of given width. -/
def countWindow (fs : LogFS) (c fuel : Nat) : Nat :=
  (List.range fuel).countP (fun i => decide (seqFileName (c + i) ∈ accessibleFiles fs))

/-- Environment of a hipot run in which every hardware call succeeds, the
relay path closes fully, then run_from_file raises. -/
def envKeepAbort : HipotEnv :=
  ⟨true, true, true, true, none, true, true, true, true⟩

/-- Environment of a hipot run in which relay 7 (channel 6) fails to
close after the path began closing. -/
def envClose6Fails : HipotEnv :=
  ⟨true, true, true, false, none, true, true, true, true⟩

/-- A log-module state holding a fresh active session. -/
def lgFresh : LogModuleState := { current := some Session.fresh, history := [] }

/-- A scripted hipot run that fails, with no relay effect. -/
def failRun : RunSpec := ⟨false, "fail", id⟩

/-- The measurement scan of Scenario D: points 1 and 3 read 5, point 2
times out; the configured range is (1, 9). -/
def scenarioDOutcomes : List PointOutcome :=
  [PointOutcome.ok 5, PointOutcome.timedOut, PointOutcome.ok 5]

/-- A session with one attempt and no final result yet. -/
def prevOpenSession : Session := ⟨[⟨1, true, "ok"⟩], [], none, ""⟩

/-- A configuration as selected for a 208 V / 7000 W unit. -/
def cfgSelected : Configuration := ⟨some 208, some 7000, some (91/10, 98/10)⟩

/-- A relay state with every channel energized. -/
def sDirty : RelayState := List.replicate 8 true

/-- A hipot run that passes and leaves the hipot path closed
(keep_relay_closed semantics). -/
def hipotPassRun : RunSpec :=
  ⟨true, "hipok", fun s => setRelay (setRelay s 7 true) 6 true⟩

/-- A measurement run that passes with no net relay effect. -/
def measPassRun : RunSpec := ⟨true, "measok", id⟩

/-- The value returned on the successful path of a full session run. -/
def resSuccess : (Bool × String) × RelayState × LogModuleState :=
  ((true, "Hipot + Measuring completed successfully"), allOffState,
    ⟨none, [⟨[⟨1, true, "hipok"⟩], [⟨1, true, "measok"⟩], some true,
      "Mode: normal | Hipot + Measuring completed successfully"⟩]⟩)

/-- A file system holding sessions 9999 and 10000 (the latter has five
digits, so the 4-digit parse skips it and the collision loop must not). -/
def fsAt9999 : LogFS := ⟨[seqFileName 9999, seqFileName 10000], []⟩

/-- The same locations after one more session file was written. -/
def fsAt9999PlusNew : LogFS :=
  ⟨[seqFileName 9999, seqFileName 10000, seqFileName 10001], []⟩

/-! ## Theorems -/

/-- C3: a hipot run is judged passing iff the whitespace-trimmed,
uppercased raw result contains the substring PASS; in particular
"  pass\r" is judged Pass while "HI-LIMIT", "Short", the empty string
and an absent (None) result are judged Fail. -/
theorem hipot_pass_iff_contains_PASS :
    (∀ r : Option String, hipotResultPassed r = true ↔
      containsSeq "PASS".toList (pyUpper (pyStrip (r.getD "").toList)) = true) ∧
    hipotResultPassed (some "  pass\r") = true ∧
    hipotResultPassed (some "HI-LIMIT") = false ∧
    hipotResultPassed (some "Short") = false ∧
    hipotResultPassed (some "") = false ∧
    hipotResultPassed none = false := by
  refine ⟨fun r => ?_, by decide, by decide, by decide, by decide, by decide⟩
  cases r <;> exact Iff.rfl

/-- C8: the hipot stored-test-profile index is 2 iff the configured
voltage is 440 or 480, and 1 in every other case, including an absent
configuration or an absent voltage. -/
theorem hypot_file_index_440_480 (cfg : Option Configuration) :
    (selectHypotFileIndex cfg = 2 ↔
      ∃ c v, cfg = some c ∧ c.voltage = some v ∧ (v = 440 ∨ v = 480)) ∧
    (¬(∃ c v, cfg = some c ∧ c.voltage = some v ∧ (v = 440 ∨ v = 480)) →
      selectHypotFileIndex cfg = 1) := by
  constructor
  · constructor
    · intro h2
      rcases cfg with _ | c
      · simp [selectHypotFileIndex] at h2
      · rcases hv : c.voltage with _ | v
        · simp [selectHypotFileIndex, hv] at h2
        · by_cases h44 : v = 440 ∨ v = 480
          · exact ⟨c, v, rfl, hv, h44⟩
          · simp [selectHypotFileIndex, hv, h44] at h2
    · rintro ⟨c, v, rfl, hv, h44⟩
      simp [selectHypotFileIndex, hv, h44]
  · intro hno
    rcases cfg with _ | c
    · rfl
    · rcases hv : c.voltage with _ | v
      · simp [selectHypotFileIndex, hv]
      · by_cases h44 : v = 440 ∨ v = 480
        · exact absurd ⟨c, v, rfl, hv, h44⟩ hno
        · simp [selectHypotFileIndex, hv, h44]

/-- C8 witness: concrete instances of the index rule. -/
theorem hypot_file_index_440_480_witness :
    selectHypotFileIndex (some ⟨some 480, some 7000, none⟩) = 2 ∧
    selectHypotFileIndex (some ⟨some 208, some 7000, none⟩) = 1 ∧
    selectHypotFileIndex none = 1 :=
  ⟨(hypot_file_index_440_480 (some ⟨some 480, some 7000, none⟩)).1.mpr
      ⟨⟨some 480, some 7000, none⟩, 480, rfl, rfl, Or.inr rfl⟩,
    (hypot_file_index_440_480 (some ⟨some 208, some 7000, none⟩)).2 (by simp),
    (hypot_file_index_440_480 none).2 (by simp)⟩

/-- C9: the per-point judgement of a successfully read value against a
configured range is inclusive membership: equality with either bound
passes, any positive excursion outside fails; and in the overall
aggregation a value of a range with positive minimum contributes no
failure entry iff it lies within the range. -/
theorem range_inclusive_judgement (rmin rmax v eps : ℚ) :
    (pointPass (rmin, rmax) v = true ↔ rmin ≤ v ∧ v ≤ rmax) ∧
    (rmin ≤ rmax →
      pointPass (rmin, rmax) rmin = true ∧ pointPass (rmin, rmax) rmax = true) ∧
    (0 < eps →
      pointPass (rmin, rmax) (rmax + eps) = false ∧
      pointPass (rmin, rmax) (rmin - eps) = false) ∧
    (0 < rmin →
      (failedEntriesFrom rmin rmax 0 [v] = [] ↔ rmin ≤ v ∧ v ≤ rmax)) := by
  refine ⟨?_, ?_, ?_, ?_⟩
  · simp [pointPass]
  · intro hle
    constructor <;> simp [pointPass, hle]
  · intro heps
    constructor <;> simp [pointPass] <;> intro h <;> linarith
  · intro hpos
    by_cases hz : v = 0
    · subst hz
      simp only [failedEntriesFrom, if_pos rfl]
      constructor
      · intro h; exact absurd h (by simp)
      · rintro ⟨h1, _⟩; linarith
    · by_cases hin : rmin ≤ v ∧ v ≤ rmax
      · simp [failedEntriesFrom, hz, hin]
      · simp [failedEntriesFrom, hz, hin]

/-- C9 witness: range (91/10, 98/10), value 93/10, eps 1/10. -/
theorem range_inclusive_judgement_witness :
    (pointPass (91/10, 98/10) (93/10 : ℚ) = true ↔
      (91/10 : ℚ) ≤ 93/10 ∧ (93/10 : ℚ) ≤ 98/10) ∧
    pointPass ((91/10 : ℚ), (98/10 : ℚ)) (91/10) = true ∧
    pointPass ((91/10 : ℚ), (98/10 : ℚ)) (98/10 + 1/10) = false ∧
    (failedEntriesFrom (91/10) (98/10) 0 [(93/10 : ℚ)] = [] ↔
      (91/10 : ℚ) ≤ 93/10 ∧ (93/10 : ℚ) ≤ 98/10) :=
  ⟨(range_inclusive_judgement (91/10) (98/10) (93/10) (1/10)).1,
    ((range_inclusive_judgement (91/10) (98/10) (93/10) (1/10)).2.1 (by norm_num)).1,
    ((range_inclusive_judgement (91/10) (98/10) (93/10) (1/10)).2.2.1 (by norm_num)).1,
    (range_inclusive_judgement (91/10) (98/10) (93/10) (1/10)).2.2.2 (by norm_num)⟩

/-- C1 counterexample: with keep_relay_closed=True and an exception in
step 5 after the relay path closed, run_hipot_test re-raises with relay
channels 6 and 7 still energized - the emergency all-off is skipped, so
the forced all-off does not happen regardless of keep_relay_closed. -/
theorem hipot_emergency_not_regardless_counterexample :
    envKeepAbort.close7Ok = true ∧
    (runHipotTest envKeepAbort true allOffState).1 = Except.error () ∧
    allChannelsOff (runHipotTest envKeepAbort true allOffState).2 = false := by
  exact ⟨rfl, rfl, rfl⟩

/-- C1 amended: if an exception is raised during steps 2-5 after the
relay path has begun closing and keep_relay_closed is false, then
(provided the emergency all_off call itself succeeds) all relay channels
are forced off before the exception is re-raised; with
keep_relay_closed true the channels are left as they are. -/
theorem hipot_emergency_alloff_when_not_keep (env : HipotEnv) (s0 : RelayState)
    (hres : env.resetOk = true) (h7 : env.close7Ok = true)
    (habort : env.close6Ok = false ∨ env.runOutcome = none)
    (hem : env.emergencyAllOffOk = true) :
    (runHipotTest env false s0).1 = Except.error () ∧
    (runHipotTest env false s0).2 = allOffState := by
  rcases habort with h6 | hrun
  · constructor <;> simp [runHipotTest, emergencyCleanup, hres, h7, h6, hem]
  · rcases h6 : env.close6Ok with _ | _
    · constructor <;> simp [runHipotTest, emergencyCleanup, hres, h7, h6, hem]
    · constructor <;> simp [runHipotTest, emergencyCleanup, hres, h7, h6, hrun, hem]

/-- C1 witness: concrete run of the amended statement. -/
theorem hipot_emergency_alloff_when_not_keep_witness :
    (runHipotTest envClose6Fails false allOffState).1 = Except.error () ∧
    (runHipotTest envClose6Fails false allOffState).2 = allOffState :=
  hipot_emergency_alloff_when_not_keep envClose6Fails allOffState rfl rfl
    (Or.inl rfl) rfl

/-- C7: with no previously supplied configuration and the operator
declining the configuration dialog, run_full_sequence returns a failure
immediately: the relay state and the session-log module state are exactly
as before the call (start_test_session is never reached). -/
theorem declined_configuration_aborts_immediately
    (isDemo resetOk ready : Bool) (fuel : Nat)
    (mr : List RunSpec) (md : List Bool) (hr : List RunSpec) (hd : List HChoice)
    (s : RelayState) (lg : LogModuleState) :
    runFullSequence none DialogOutcome.declined isDemo resetOk ready fuel
      mr md hr hd s lg =
      some ((false, "Operator cancelled configuration"), s, lg) := rfl

/-- C6: evaluation of the hipot phase at the failing input - all runs
fail and the operator chooses CONTINUE at the first prompt, then EXIT.
The code performs the automatic CONTINUE re-run (attempt 2), and when it
fails it runs the sequencer a third time before the next prompt, instead
of returning directly to the three-way prompt as the inline comment
(show dialog again) and the claim describe.  Each run still appends
exactly one attempt record and the k-th run is numbered k. -/
theorem hipot_continue_after_fail_trace :
    hipotPhase true 5 [failRun, failRun, failRun] [HChoice.cont, HChoice.leave]
      allOffState lgFresh [] =
    some (false, "fail", allOffState,
      { current := some
          { hipotAttempts :=
              [⟨1, false, "fail"⟩, ⟨2, false, "fail"⟩, ⟨3, false, "fail"⟩],
            measAttempts := [], finalResult := none, finalNote := "" },
        history := [] },
      [HEvent.ranTest false, HEvent.prompted HChoice.cont, HEvent.ranTest false,
        HEvent.ranTest false, HEvent.prompted HChoice.leave]) := rfl

/-- The failed_measurements list is empty iff every value is non-zero and
inside the configured range. -/
theorem failedEntriesFrom_eq_nil (rmin rmax : ℚ) :
    ∀ (idx : Nat) (vals : List ℚ),
      failedEntriesFrom rmin rmax idx vals = [] ↔
        ∀ v ∈ vals, v ≠ 0 ∧ rmin ≤ v ∧ v ≤ rmax := by
  intro idx vals
  induction vals generalizing idx with
  | nil => simp [failedEntriesFrom]
  | cons v rest ih =>
    by_cases hz : v = 0
    · subst hz
      simp [failedEntriesFrom]
    · by_cases hin : rmin ≤ v ∧ v ≤ rmax
      · rw [failedEntriesFrom, if_neg hz, if_neg (not_not_intro hin)]
        rw [ih (idx + 1)]
        simp [hz, hin]
      · rw [failedEntriesFrom, if_neg hz, if_pos hin]
        simp [hin]

/-- C4 counterexample: with point 2 timing out and points 1 and 3 in
range, the overall result is Fail and point 2 records the 0.0 sentinel,
but the failure message is the fixed generic text, which does not name
point 2 (no P2 occurs in it), contradicting the claim that the failure
message names the timed-out point. -/
theorem timeout_message_generic_counterexample :
    (measurementRun scenarioDOutcomes (some (1, 9))).1 = false ∧
    (measurementRun scenarioDOutcomes (some (1, 9))).2.2[1]? = some 0 ∧
    (measurementRun scenarioDOutcomes (some (1, 9))).2.1 = timeoutMessage ∧
    containsSeq "P2".toList
      (measurementRun scenarioDOutcomes (some (1, 9))).2.1.toList = false := by
  refine ⟨rfl, by decide, rfl, by decide⟩

/-- C4 amended: the overall result is Pass iff no point timed out, at
least one point was attempted, and - when a range is configured - every
recorded value is non-zero and inside the range; a timed-out point is
recorded as the 0.0 sentinel and forces Fail, but the failure message is
then the fixed generic text (points are named in the failure message only
by the range check, which runs only when no timeout occurred). -/
theorem measurement_verdict_rule (outcomes : List PointOutcome)
    (rng : Option (ℚ × ℚ)) :
    ((measurementRun outcomes rng).1 = true ↔
      ((∀ o ∈ outcomes, isTimeout o = false) ∧ outcomes ≠ [] ∧
        ∀ rmin rmax, rng = some (rmin, rmax) →
          ∀ v ∈ outcomes.map recordedValue, v ≠ 0 ∧ rmin ≤ v ∧ v ≤ rmax)) ∧
    (∀ i : Nat, outcomes[i]? = some PointOutcome.timedOut →
      (outcomes.map recordedValue)[i]? = some 0 ∧
      (measurementRun outcomes rng).1 = false ∧
      (measurementRun outcomes rng).2.1 = timeoutMessage) := by
  constructor
  · by_cases ht : outcomes.any isTimeout = true
    · have h1 : (measurementRun outcomes rng).1 = false := by
        simp [measurementRun, ht]
      rw [h1]
      obtain ⟨o, ho, hto⟩ := List.any_eq_true.mp ht
      constructor
      · intro h; exact absurd h (by simp)
      · rintro ⟨hall, -, -⟩
        exact absurd (hall o ho) (by simp [hto])
    · have hanyf : outcomes.any isTimeout = false := by simpa using ht
      have hall : ∀ o ∈ outcomes, isTimeout o = false := by
        intro o ho
        by_contra hc
        exact ht (List.any_eq_true.mpr ⟨o, ho, by simpa using hc⟩)
      rcases eq_or_ne outcomes [] with rfl | hne
      · have h1 : (measurementRun [] rng).1 = false := by
          simp [measurementRun]
        rw [h1]
        constructor
        · intro h; exact absurd h (by simp)
        · rintro ⟨-, hni, -⟩; exact absurd rfl hni
      · have hmapne : (outcomes.map recordedValue).isEmpty = false := by
          have : outcomes.map recordedValue ≠ [] := by simpa using hne
          simp [List.isEmpty_iff, this]
        rcases rng with _ | ⟨rmin, rmax⟩
        · have h1 : (measurementRun outcomes none).1 = true := by
            simp [measurementRun, hanyf, hmapne]
          rw [h1]
          constructor
          · intro _; exact ⟨hall, hne, fun a b h => by cases h⟩
          · intro _; rfl
        · by_cases hfail :
              failedEntriesFrom rmin rmax 0
                (outcomes.map recordedValue ++ outcomes.map recordedValue) = []
          · have h1 : (measurementRun outcomes (some (rmin, rmax))).1 = true := by
              simp [measurementRun, hanyf, hmapne, hfail]
            rw [h1]
            rw [failedEntriesFrom_eq_nil] at hfail
            constructor
            · intro _
              refine ⟨hall, hne, ?_⟩
              rintro a b hab v hv
              injection hab with hab
              obtain ⟨rfl, rfl⟩ := Prod.mk.inj hab
              exact hfail v (List.mem_append.mpr (Or.inl hv))
            · intro _; rfl
          · have hke : (failedEntriesFrom rmin rmax 0
                (outcomes.map recordedValue ++ outcomes.map recordedValue)).isEmpty
                  = false := by
              simp [List.isEmpty_iff, hfail]
            have h1 : (measurementRun outcomes (some (rmin, rmax))).1 = false := by
              simp only [measurementRun, hanyf, Bool.false_eq_true, if_false, hmapne, hke]
            rw [h1]
            constructor
            · intro h; exact absurd h (by simp)
            · rintro ⟨-, -, hrange⟩
              exfalso
              apply hfail
              rw [failedEntriesFrom_eq_nil]
              intro v hv
              rcases List.mem_append.mp hv with h | h
              · exact hrange rmin rmax rfl v h
              · exact hrange rmin rmax rfl v h
  · intro i hi
    have hmem : PointOutcome.timedOut ∈ outcomes := List.getElem?_mem hi
    have hany : outcomes.any isTimeout = true :=
      List.any_eq_true.mpr ⟨PointOutcome.timedOut, hmem, rfl⟩
    refine ⟨?_, ?_, ?_⟩
    · rw [List.getElem?_map, hi]; rfl
    · simp [measurementRun, hany]
    · simp [measurementRun, hany]

/-- C4 witness: a passing scan for the iff direction, and the Scenario D
scan for the timed-out-point clause. -/
theorem measurement_verdict_rule_witness :
    (measurementRun [PointOutcome.ok 5] (some (1, 9))).1 = true ∧
    ((scenarioDOutcomes.map recordedValue)[1]? = some 0 ∧
      (measurementRun scenarioDOutcomes (some (1, 9))).1 = false ∧
      (measurementRun scenarioDOutcomes (some (1, 9))).2.1 = timeoutMessage) :=
  ⟨(measurement_verdict_rule [PointOutcome.ok 5] (some (1, 9))).1.mpr
      ⟨by decide, by decide, by
        intro rmin rmax hab v hv
        injection hab with hab
        have h1 : rmin = 1 := (congrArg Prod.fst hab).symm
        have h2 : rmax = 9 := (congrArg Prod.snd hab).symm
        subst h1; subst h2
        simp only [List.map_cons, List.map_nil, List.mem_singleton] at hv
        subst hv
        refine ⟨by norm_num [recordedValue], by norm_num [recordedValue], by norm_num [recordedValue]⟩⟩,
    (measurement_verdict_rule scenarioDOutcomes (some (1, 9))).2 1 (by decide)⟩

/-- C10: start_test_session first finalizes a still-open previous session
as FAIL with the superseded note, then installs a fresh unfinalized
session; sessions that have left the current slot all carry a final
result. -/
theorem supersede_finalizes_previous (st : LogModuleState) (prev : Session)
    (hcur : st.current = some prev) (hunf : prev.finalResult = none)
    (hfin : ∀ t ∈ st.history, t.finalResult ≠ none) :
    (startTestSession st).current = some Session.fresh ∧
    Session.fresh.finalResult = none ∧
    (startTestSession st).history =
      st.history ++ [prev.finalizeWith false supersededNote] ∧
    (prev.finalizeWith false supersededNote).finalResult = some false ∧
    (prev.finalizeWith false supersededNote).finalNote = supersededNote ∧
    ∀ t ∈ (startTestSession st).history, t.finalResult ≠ none := by
  have hst : startTestSession st =
      { current := some Session.fresh,
        history := st.history ++ [prev.finalizeWith false supersededNote] } := by
    unfold startTestSession
    rw [hcur]
    simp [hunf]
  refine ⟨by rw [hst], rfl, by rw [hst], rfl, rfl, ?_⟩
  rw [hst]
  intro t ht
  rcases List.mem_append.mp ht with h | h
  · exact hfin t h
  · simp only [List.mem_singleton] at h
    subst h
    simp [Session.finalizeWith]

/-- C10 witness: superseding a concrete open session. -/
theorem supersede_finalizes_previous_witness :
    (startTestSession ⟨some prevOpenSession, []⟩).current = some Session.fresh ∧
    Session.fresh.finalResult = none ∧
    (startTestSession ⟨some prevOpenSession, []⟩).history =
      [] ++ [prevOpenSession.finalizeWith false supersededNote] ∧
    (prevOpenSession.finalizeWith false supersededNote).finalResult = some false ∧
    (prevOpenSession.finalizeWith false supersededNote).finalNote = supersededNote ∧
    ∀ t ∈ (startTestSession ⟨some prevOpenSession, []⟩).history,
      t.finalResult ≠ none :=
  supersede_finalizes_previous ⟨some prevOpenSession, []⟩ prevOpenSession rfl rfl
    (by intro t ht; exact absurd ht (List.not_mem_nil t))

/-- When the measurement retry loop ends with the operator choosing Exit
and the reset calls succeed, the relays are all off. -/
theorem measPhase_cancel_relays_off :
    ∀ (fuel : Nat) (runs : List RunSpec) (decs : List Bool) (s : RelayState)
      (lg : LogModuleState) (m : String) (s1 : RelayState) (lg1 : LogModuleState),
      measPhase true fuel runs decs s lg = some (false, m, s1, lg1) →
      s1 = allOffState := by
  intro fuel
  induction fuel with
  | zero =>
    intro runs decs s lg m s1 lg1 h
    simp [measPhase] at h
  | succ n ih =>
    intro runs decs s lg m s1 lg1 h
    match runs with
    | [] => simp [measPhase] at h
    | r :: rest =>
      rcases hp : r.passed with _ | _
      · simp only [measPhase, hp, Bool.false_eq_true, if_false] at h
        match decs with
        | [] => simp at h
        | d :: decs' =>
          rcases hd : d with _ | _
          · subst hd
            simp only [Bool.false_eq_true, if_false, Option.some.injEq,
              Prod.mk.injEq] at h
            rw [← h.2.2.1]
            rfl
          · subst hd
            simp only [if_true] at h
            exact ih rest decs' _ _ m s1 lg1 h
      · simp only [measPhase, hp, if_true] at h
        simp at h

/-- When the hipot retry loop ends with the operator choosing Exit and
the reset calls succeed, the relays are all off. -/
theorem hipotPhase_cancel_relays_off :
    ∀ (fuel : Nat) (runs : List RunSpec) (decs : List HChoice) (s : RelayState)
      (lg : LogModuleState) (tr : List HEvent) (m : String) (s1 : RelayState)
      (lg1 : LogModuleState) (tr1 : List HEvent),
      hipotPhase true fuel runs decs s lg tr = some (false, m, s1, lg1, tr1) →
      s1 = allOffState := by
  intro fuel
  induction fuel with
  | zero =>
    intro runs decs s lg tr m s1 lg1 tr1 h
    simp [hipotPhase] at h
  | succ n ih =>
    intro runs decs s lg tr m s1 lg1 tr1 h
    match runs with
    | [] => simp [hipotPhase] at h
    | r :: rest =>
      match decs with
      | [] => simp [hipotPhase] at h
      | d :: decs' =>
        rcases hd : d with _ | _ | _
        · subst hd
          simp only [hipotPhase] at h
          rcases hp : r.passed with _ | _
          · simp only [hp, Bool.false_eq_true, if_false] at h
            match rest with
            | [] => simp at h
            | r2 :: rest' =>
              rcases hp2 : r2.passed with _ | _
              · simp only [hp2, Bool.false_eq_true, if_false] at h
                exact ih rest' decs' _ _ _ m s1 lg1 tr1 h
              · simp only [hp2, if_true] at h
                simp at h
          · simp only [hp, if_true] at h
            simp at h
        · subst hd
          simp only [hipotPhase] at h
          exact ih rest decs' _ _ _ m s1 lg1 tr1 h
        · subst hd
          simp only [hipotPhase, Option.some.injEq, Prod.mk.injEq] at h
          rw [← h.2.2.1]
          rfl

/-- Every value _run_normal_sequence returns carries an all-off relay
state, provided the _reset_hardware calls succeed. -/
theorem runNormalSequence_relays_off
    (ready : Bool) (fuel : Nat)
    (mr : List RunSpec) (md : List Bool) (hrs : List RunSpec) (hds : List HChoice)
    (s : RelayState) (lg : LogModuleState)
    (r : (SeqOutcome × String) × RelayState × LogModuleState)
    (h : runNormalSequence true ready fuel mr md hrs hds s lg = some r) :
    r.2.1 = allOffState := by
  rcases hready : ready with _ | _
  · subst hready
    simp only [runNormalSequence, if_true] at h
    injection h with h
    rw [← h]
    rfl
  · subst hready
    simp only [runNormalSequence, Bool.true_eq_false, if_false] at h
    rcases hm : measPhase true fuel mr md s lg with _ | ⟨b, m, s1, lg1⟩
    · rw [hm] at h; cases h
    · rw [hm] at h
      rcases hb : b with _ | _
      · subst hb
        simp only at h
        injection h with h
        rw [← h]
        exact measPhase_cancel_relays_off fuel mr md s lg m s1 lg1 hm
      · subst hb
        simp only at h
        rcases hh : hipotPhase true fuel hrs hds s1 lg1 [] with _ | ⟨b2, m2, s2, lg2, tr2⟩
        · rw [hh] at h; cases h
        · rw [hh] at h
          rcases hb2 : b2 with _ | _
          · subst hb2
            simp only at h
            injection h with h
            rw [← h]
            exact hipotPhase_cancel_relays_off fuel hrs hds s1 lg1 [] m2 s2 lg2 tr2 hh
          · subst hb2
            simp only at h
            injection h with h
            rw [← h]
            rfl

/-- C2: for every terminal path of a session in which a configuration is
obtained - success, operator Exit at the ready prompt, at the
measurement-retry prompt, or at the hipot three-way prompt, with
sequencer exceptions appearing as failed runs of arbitrary relay
effect - when run_full_sequence returns (and the _reset_hardware calls
succeed), every relay channel is off. -/
theorem terminal_paths_relays_off
    (cfgA : Option Configuration) (dlg : DialogOutcome) (ready : Bool) (fuel : Nat)
    (mr : List RunSpec) (md : List Bool) (hrs : List RunSpec) (hds : List HChoice)
    (s : RelayState) (lg : LogModuleState)
    (res : (Bool × String) × RelayState × LogModuleState)
    (hcfg : cfgA ≠ none ∨ dlg ≠ DialogOutcome.declined)
    (hrun : runFullSequence cfgA dlg false true ready fuel mr md hrs hds s lg =
      some res) :
    res.2.1 = allOffState ∧ allChannelsOff res.2.1 = true := by
  have hstep :
      ∃ lg1, runFullSequence cfgA dlg false true ready fuel mr md hrs hds s lg =
        (match runNormalSequence true ready fuel mr md hrs hds s lg1 with
          | none => none
          | some ((out, m), s2, lg2) =>
            some ((out.isSuccess, m), s2,
              finalizeSession lg2 out.isSuccess ("Mode: normal | " ++ m))) := by
    rcases cfgA with _ | c
    · rcases dlg with _ | c | _
      · exact absurd rfl (hcfg.resolve_left (fun hh => hh rfl))
      · exact ⟨startTestSession lg, rfl⟩
      · exact ⟨startTestSession lg, rfl⟩
    · exact ⟨startTestSession lg, rfl⟩
  obtain ⟨lg1, hstep⟩ := hstep
  rw [hstep] at hrun
  rcases hN : runNormalSequence true ready fuel mr md hrs hds s lg1 with
    _ | ⟨⟨out, m⟩, s2, lg2⟩
  · rw [hN] at hrun; cases hrun
  · rw [hN] at hrun
    simp only at hrun
    injection hrun with hrun
    have hs2 : s2 = allOffState :=
      runNormalSequence_relays_off ready fuel mr md hrs hds s lg1
        (⟨(out, m), s2, lg2⟩) hN
    rw [← hrun]
    subst hs2
    exact ⟨rfl, rfl⟩

/-- C2 witness: a full successful session starting from an all-energized
relay bank ends with every channel off. -/
theorem terminal_paths_relays_off_witness :
    runFullSequence (some cfgSelected) DialogOutcome.errored false true true 3
      [measPassRun] [] [hipotPassRun] [HChoice.cont] sDirty ⟨none, []⟩ =
      some resSuccess ∧
    resSuccess.2.1 = allOffState ∧ allChannelsOff resSuccess.2.1 = true :=
  ⟨rfl,
    terminal_paths_relays_off (some cfgSelected) DialogOutcome.errored true 3
      [measPassRun] [] [hipotPassRun] [HChoice.cont] sDirty ⟨none, []⟩ resSuccess
      (Or.inl (by simp)) rfl⟩

/-! ### Sequence-number lemmas -/

/-- Digits produced by decDigits are below the base. -/
theorem decDigits_lt_base : ∀ fuel n, ∀ d ∈ decDigits fuel n, d < 10 := by
  intro fuel
  induction fuel with
  | zero => intro n d hd; simp [decDigits] at hd
  | succ k ih =>
    intro n d hd
    rw [decDigits] at hd
    by_cases hn : n = 0
    · rw [if_pos hn] at hd; simp at hd
    · rw [if_neg hn] at hd
      rcases List.mem_cons.mp hd with rfl | hmem
      · exact Nat.mod_lt _ (by norm_num)
      · exact ih _ d hmem

/-- decDigits is the little-endian base-10 representation when the fuel
covers the number. -/
theorem ofDigits_decDigits : ∀ fuel n, n ≤ fuel →
    Nat.ofDigits 10 (decDigits fuel n) = n := by
  intro fuel
  induction fuel with
  | zero => intro n h; interval_cases n; simp [decDigits]
  | succ k ih =>
    intro n h
    rw [decDigits]
    by_cases hn : n = 0
    · rw [if_pos hn]; simp [hn]
    · rw [if_neg hn, Nat.ofDigits_cons]
      have hle : n / 10 ≤ k := by
        have := Nat.div_lt_self (Nat.pos_of_ne_zero hn) (by norm_num : 1 < 10)
        omega
      rw [ih _ hle]
      omega

/-- Reading back a rendered digit. -/
theorem charToDigit_digitChar : ∀ d < 10, charToDigit (digitChar d) = d := by decide

/-- ofDigits of a zero run is zero. -/
theorem ofDigits_replicate_zero : ∀ k, Nat.ofDigits 10 (List.replicate k 0) = 0 := by
  intro k
  induction k with
  | zero => simp
  | succ j ih => simp [List.replicate_succ, Nat.ofDigits_cons, ih]

/-- pad4 is inverted by unpadVal, hence injective. -/
theorem unpadVal_pad4 (n : Nat) : unpadVal (pad4 n) = n := by
  unfold unpadVal pad4 decChars
  rw [List.reverse_append, List.reverse_replicate, List.reverse_reverse]
  rw [List.map_append, List.map_map, List.map_replicate]
  have h2 : (decDigits n n).map ((fun c => charToDigit c) ∘ digitChar) =
      decDigits n n := by
    have hpt : ∀ d ∈ decDigits n n,
        ((fun c => charToDigit c) ∘ digitChar) d = id d :=
      fun d hd => charToDigit_digitChar d (decDigits_lt_base n n d hd)
    rw [List.map_congr_left hpt, List.map_id]
  rw [h2]
  have h3 : charToDigit '0' = 0 := rfl
  rw [h3, Nat.ofDigits_append, ofDigits_replicate_zero, ofDigits_decDigits n n le_rfl]
  simp

/-- seqFileName is injective: equal filenames force equal numbers. -/
theorem seqFileName_injective : Function.Injective seqFileName := by
  intro a b h
  unfold seqFileName at h
  have h1 := List.append_cancel_right h
  have h2 := List.append_cancel_left h1
  have := congrArg unpadVal h2
  rwa [unpadVal_pad4, unpadVal_pad4] at this

/-- Peeling one candidate off the window. -/
theorem countWindow_succ (fs : LogFS) (c fuel : Nat) :
    countWindow fs c (fuel + 1) =
      (if seqFileName c ∈ accessibleFiles fs then 1 else 0) +
        countWindow fs (c + 1) fuel := by
  unfold countWindow
  rw [List.range_succ_eq_map, List.countP_cons, List.countP_map]
  have hpt : ∀ i ∈ List.range fuel,
      ((fun i => decide (seqFileName (c + i) ∈ accessibleFiles fs)) ∘ Nat.succ) i =
        (fun i => decide (seqFileName (c + 1 + i) ∈ accessibleFiles fs)) i := by
    intro i _
    simp only [Function.comp]
    have : c + Nat.succ i = c + 1 + i := by omega
    rw [this]
  rw [List.countP_congr (fun i hi => by rw [hpt i hi])]
  simp only [Nat.add_zero]
  by_cases hc : seqFileName c ∈ accessibleFiles fs
  · simp [hc, Nat.add_comm]
  · simp [hc]

/-- The window count never exceeds the number of accessible files. -/
theorem countWindow_le (fs : LogFS) (c fuel : Nat) :
    countWindow fs c fuel ≤ (accessibleFiles fs).length := by
  classical
  unfold countWindow
  rw [List.countP_eq_length_filter]
  set P : Nat → Bool := fun i => decide (seqFileName (c + i) ∈ accessibleFiles fs)
    with hP
  set l := (List.range fuel).filter P with hl
  have hnd : l.Nodup := by
    rw [hl]
    exact (List.nodup_range fuel).filter P
  have hfinj : Function.Injective (fun i => seqFileName (c + i)) := by
    intro a b hab
    have := seqFileName_injective hab
    omega
  have hmapnd : (l.map (fun i => seqFileName (c + i))).Nodup := hnd.map hfinj
  have hsub : (l.map (fun i => seqFileName (c + i))).toFinset ⊆
      (accessibleFiles fs).toFinset := by
    intro x hx
    rw [List.mem_toFinset] at hx
    obtain ⟨i, hi, rfl⟩ := List.mem_map.mp hx
    have hPi : P i = true := List.of_mem_filter hi
    rw [List.mem_toFinset]
    exact of_decide_eq_true hPi
  calc l.length = (l.map (fun i => seqFileName (c + i))).length :=
        (List.length_map _ _).symm
    _ = (l.map (fun i => seqFileName (c + i))).toFinset.card :=
        (List.toFinset_card_of_nodup hmapnd).symm
    _ ≤ (accessibleFiles fs).toFinset.card := Finset.card_le_card hsub
    _ ≤ (accessibleFiles fs).length := (accessibleFiles fs).toFinset_card_le

/-- With more fuel than in-use candidates in the window, the loop lands
on a free filename. -/
theorem seqLoop_free (fs : LogFS) :
    ∀ (fuel c : Nat), countWindow fs c fuel < fuel →
      seqFileName (seqLoop fs fuel c) ∉ accessibleFiles fs := by
  intro fuel
  induction fuel with
  | zero => intro c h; exact absurd h (Nat.not_lt_zero _)
  | succ k ih =>
    intro c h
    by_cases hc : seqFileName c ∈ accessibleFiles fs
    · rw [seqLoop, if_pos hc]
      apply ih
      have := countWindow_succ fs c k
      rw [if_pos hc] at this
      omega
    · rw [seqLoop, if_neg hc]
      exact hc

/-- The loop never goes below its starting candidate. -/
theorem seqLoop_ge (fs : LogFS) : ∀ (fuel c : Nat), c ≤ seqLoop fs fuel c := by
  intro fuel
  induction fuel with
  | zero => intro c; exact le_rfl
  | succ k ih =>
    intro c
    rw [seqLoop]
    by_cases hc : seqFileName c ∈ accessibleFiles fs
    · rw [if_pos hc]; exact le_trans (Nat.le_succ c) (ih (c + 1))
    · rw [if_neg hc]

/-- Every candidate skipped by the loop was in use. -/
theorem seqLoop_skipped_in_use (fs : LogFS) :
    ∀ (fuel c m : Nat), c ≤ m → m < seqLoop fs fuel c →
      seqFileName m ∈ accessibleFiles fs := by
  intro fuel
  induction fuel with
  | zero =>
    intro c m hcm hm
    rw [seqLoop] at hm
    omega
  | succ k ih =>
    intro c m hcm hm
    rw [seqLoop] at hm
    by_cases hc : seqFileName c ∈ accessibleFiles fs
    · rw [if_pos hc] at hm
      rcases Nat.eq_or_lt_of_le hcm with rfl | hlt
      · exact hc
      · exact ih (c + 1) m hlt hm
    · rw [if_neg hc] at hm
      omega

/-- C5: the assigned sequence number exceeds the maximum parsed from the
accessible ET_ELOV filenames, its filename exists at no accessible
location, every number between the maximum and it was in use (the
increment loop), and a second numbering that can see the first session's
file assigns a different number. -/
theorem sequence_number_fresh_and_distinct (fs : LogFS) :
    maxSeq fs < nextSequenceNumber fs ∧
    seqFileName (nextSequenceNumber fs) ∉ accessibleFiles fs ∧
    (∀ m : Nat, maxSeq fs < m → m < nextSequenceNumber fs →
      seqFileName m ∈ accessibleFiles fs) ∧
    ∀ fs2 : LogFS, seqFileName (nextSequenceNumber fs) ∈ accessibleFiles fs2 →
      nextSequenceNumber fs2 ≠ nextSequenceNumber fs := by
  have hfuel : countWindow fs (maxSeq fs + 1) ((accessibleFiles fs).length + 1) <
      (accessibleFiles fs).length + 1 :=
    Nat.lt_succ_of_le (countWindow_le fs (maxSeq fs + 1) _)
  have hfree : seqFileName (nextSequenceNumber fs) ∉ accessibleFiles fs :=
    seqLoop_free fs _ _ hfuel
  refine ⟨?_, hfree, ?_, ?_⟩
  · exact Nat.lt_of_lt_of_le (Nat.lt_succ_self _) (seqLoop_ge fs _ _)
  · intro m h1 h2
    exact seqLoop_skipped_in_use fs _ _ m (by omega) h2
  · intro fs2 hmem heq
    have hfuel2 : countWindow fs2 (maxSeq fs2 + 1) ((accessibleFiles fs2).length + 1) <
        (accessibleFiles fs2).length + 1 :=
      Nat.lt_succ_of_le (countWindow_le fs2 (maxSeq fs2 + 1) _)
    have hfree2 : seqFileName (nextSequenceNumber fs2) ∉ accessibleFiles fs2 :=
      seqLoop_free fs2 _ _ hfuel2
    rw [heq] at hfree2
    exact hfree2 hmem

/-- C5 witness: concrete numbering run, including one skipped in-use
candidate and distinctness against a state containing the new file. -/
theorem sequence_number_fresh_and_distinct_witness :
    maxSeq fsAt9999 < nextSequenceNumber fsAt9999 ∧
    seqFileName (nextSequenceNumber fsAt9999) ∉ accessibleFiles fsAt9999 ∧
    seqFileName 10000 ∈ accessibleFiles fsAt9999 ∧
    nextSequenceNumber fsAt9999PlusNew ≠ nextSequenceNumber fsAt9999 :=
  ⟨(sequence_number_fresh_and_distinct fsAt9999).1,
    (sequence_number_fresh_and_distinct fsAt9999).2.1,
    (sequence_number_fresh_and_distinct fsAt9999).2.2.1 10000 (by decide) (by decide),
    (sequence_number_fresh_and_distinct fsAt9999).2.2.2 fsAt9999PlusNew (by decide)⟩

end ElementTester
